import Mathlib

/-!
Verification of the audio-transcription core of the `api-transcricao` service.

The definitions below are a shallow embedding of the TypeScript sources:

* `src/services/transcriptionService.ts` — job orchestrator and timeline
  stitcher (`transcribeAudio`, `processChunkResults`, `getJobStatus`);
* `src/services/whisperService.ts` — transcription client and batch
  coordinator (`transcribeChunks`, `transcribeChunk` cache path,
  `validateWhisperResponse`, `detectRepeatedSegments`,
  `normalizeSegmentText`);
* `src/services/audioProcessor.ts` — chunk planner
  (`planSilenceBasedChunks`) and the post-cut size check of
  `createSmartChunks`;
* `src/routes/caption.ts` — the `transcribeRequestSchema` request
  validation and the `/status` endpoint;
* `src/config/env.ts` — the `SPEED_FACTOR` default.

Numbers are embedded as `ℚ` (the source uses IEEE doubles; every claim here
is about exact arithmetic relations and order comparisons, which coincide on
the inputs considered).  Strings are Lean `String`s; JavaScript
`String.prototype.trim` and the whitespace / alphanumeric character classes
are modelled on their ASCII fragment (`Char.isWhitespace`, `Char.isAlpha`,
`Char.isDigit`), and Unicode NFKD normalisation — which is the identity on
ASCII — is modelled as the identity.  File-system and HTTP effects are
modelled by explicit parameters (existence flags, cache contents, a
per-attempt outcome oracle, an encoded-size oracle).
-/

/-! ### String helpers (ASCII models of the JavaScript string operations) -/

/-- Model of JavaScript `String.prototype.trim`: drop whitespace from both
ends.  (Implemented on the character list so that it evaluates by kernel
reduction; Lean's own `String.trim` works on byte positions.) -/
def trimChars (l : List Char) : List Char :=
  ((l.dropWhile Char.isWhitespace).reverse.dropWhile Char.isWhitespace).reverse

/-- JavaScript `text.trim()` on a Lean `String`. -/
def trimString (s : String) : String := String.mk (trimChars s.data)

/-- Model of `replace(/\s+/g, ' ')`: collapse every maximal whitespace run to
a single space.  The flag records whether the previous character was
whitespace. -/
def collapseWhitespace : List Char → Bool → List Char
  | [], _ => []
  | c :: rest, prevWs =>
    if c.isWhitespace then
      if prevWs then collapseWhitespace rest true
      else ' ' :: collapseWhitespace rest true
    else c :: collapseWhitespace rest false

/-- `String(n).padStart(3, '0')` for the chunk file names. -/
def pad3 (n : ℕ) : String :=
  if n < 10 then "00" ++ toString n
  else if n < 100 then "0" ++ toString n
  else toString n

/-- Whether an `Except` value is an error. -/
def isErrB {ε α : Type} : Except ε α → Bool
  | .error _ => true
  | .ok _ => false

/-! ### Data model (from `src/types/index.ts`)

`WhisperSegment` keeps only the fields the verified code reads
(`start`, `end`, `text`); the source record also carries token and
probability metadata that no claim touches.  The TypeScript field `end` is a
Lean keyword and is written `«end»`. -/

structure WhisperSegment where
  start : ℚ
  «end» : ℚ
  text : String
deriving DecidableEq

/-- `WhisperResponse` from `src/types/index.ts`.  `duration` and `text` are
declared total in the TypeScript interface but the client code guards them
with `??` / `?.`, so they are embedded as `Option`. -/
structure WhisperResponse where
  task : String
  language : String
  duration : Option ℚ
  text : Option String
  segments : List WhisperSegment
deriving DecidableEq

structure AudioChunk where
  index : ℕ
  path : String
  duration : ℚ
  startTime : ℚ
deriving DecidableEq

structure ChunkResult where
  chunkIndex : ℕ
  chunkPath : String
  chunkStartTime : ℚ
  chunkDuration : ℚ
  success : Bool
  segments : Option (List WhisperSegment)
  error : Option String
  retries : ℕ
  duration : Option ℚ
deriving DecidableEq

structure TranscriptionSegment where
  index : ℕ
  start : ℚ
  «end» : ℚ
  text : String
deriving DecidableEq

structure SilenceSegment where
  start : ℚ
  «end» : ℚ
  duration : ℚ
deriving DecidableEq

structure SmartChunkPlan where
  index : ℕ
  targetStart : ℚ
  targetEnd : ℚ
  actualStart : ℚ
  actualEnd : ℚ
  duration : ℚ
  usedSilence : Bool
  silenceStart : Option ℚ
  silenceEnd : Option ℚ
  estimatedSizeMB : ℚ
deriving DecidableEq

/-- The warnings pushed by `processChunkResults`.  The source pushes
formatted strings; the embedding keeps the data those strings are built
from (gap/overlap direction and size, position of the chunk pair; failed
chunk identification and original-timeline span; the quality-alert
numbers). -/
inductive StitchWarning where
  | gapOverlap (isGap : Bool) (amount : ℚ) (position : ℕ)
  | chunkFailed (chunkPath : String) (startTime endTime : ℚ) (error : Option String)
  | qualityAlert (timelineDiscrepancy failureRate : ℚ)
deriving DecidableEq

def isQualityAlert : StitchWarning → Bool
  | .qualityAlert _ _ => true
  | _ => false

/-! ### Sorting by chunk index

`transcribeChunks` and `processChunkResults` both sort chunk results with
`results.sort((a, b) => a.chunkIndex - b.chunkIndex)` (a stable sort on the
index); embedded as a stable insertion sort. -/

def insertByIdx (r : ChunkResult) : List ChunkResult → List ChunkResult
  | [] => [r]
  | x :: xs => if r.chunkIndex ≤ x.chunkIndex then r :: x :: xs else x :: insertByIdx r xs

def sortByChunkIndex : List ChunkResult → List ChunkResult
  | [] => []
  | r :: rs => insertByIdx r (sortByChunkIndex rs)

/-! ### Timeline stitcher
(`TranscriptionService.processChunkResults`, transcriptionService.ts 359-514) -/

structure StitchState where
  segments : List TranscriptionSegment
  warnings : List StitchWarning
  segmentIndex : ℕ
  lastEndTime : ℚ
deriving DecidableEq

/-- JavaScript `array.slice(-n)`. -/
def lastN {α : Type} (n : ℕ) (l : List α) : List α := l.drop (l.length - n)

/-- Body of the inner `for (const segment of result.segments)` loop
(transcriptionService.ts 394-429).  `index: segmentIndex++` happens when the
corrected segment is built; the duplicate branch undoes the increment
(`segmentIndex--`), the empty-text branch does not. -/
def stitchSegment (speedFactor chunkStartTime : ℚ) (st : StitchState)
    (segment : WhisperSegment) : StitchState :=
  let correctedSegment : TranscriptionSegment :=
    { index := st.segmentIndex
      start := segment.start * speedFactor + chunkStartTime
      «end» := segment.«end» * speedFactor + chunkStartTime
      text := trimString segment.text }
  if correctedSegment.text = "" then
    { st with segmentIndex := st.segmentIndex + 1 }
  else if !st.segments.isEmpty &&
      (lastN 3 st.segments).any (fun lastSeg => lastSeg.text == correctedSegment.text) then
    st
  else
    { st with
      segmentIndex := st.segmentIndex + 1
      segments := st.segments ++ [correctedSegment]
      lastEndTime := max st.lastEndTime correctedSegment.«end» }

/-- Body of the outer loop of `processChunkResults` for the result at
position `i` of the sorted list: continuity check (gap/overlap warning when
`|chunkStartTime − lastEndTime| > 1` and `i > 0`), then either the
per-segment loop (successful chunk with a segments array) or the
failed-chunk accounting. -/
def gapCheck (i : ℕ) (st : StitchState) (result : ChunkResult) : StitchState :=
  if 0 < i ∧ 1 < |result.chunkStartTime - st.lastEndTime| then
    { st with warnings := st.warnings ++
        [StitchWarning.gapOverlap (st.lastEndTime < result.chunkStartTime)
          |result.chunkStartTime - st.lastEndTime| i] }
  else st

def stitchChunk (speedFactor : ℚ) (i : ℕ) (st : StitchState) (result : ChunkResult) :
    StitchState :=
  match result.success, result.segments with
  | true, some segs =>
    segs.foldl (stitchSegment speedFactor result.chunkStartTime) (gapCheck i st result)
  | _, _ =>
    { gapCheck i st result with
      lastEndTime := max (gapCheck i st result).lastEndTime
        (result.chunkStartTime + result.chunkDuration)
      warnings := (gapCheck i st result).warnings ++
        [StitchWarning.chunkFailed result.chunkPath result.chunkStartTime
          (result.chunkStartTime + result.chunkDuration) result.error] }

def stitchAll (speedFactor : ℚ) : ℕ → StitchState → List ChunkResult → StitchState
  | _, st, [] => st
  | i, st, r :: rs => stitchAll speedFactor (i + 1) (stitchChunk speedFactor i st r) rs

/-- `TranscriptionService.processChunkResults`: sort results by chunk index,
run the stitching loop from `segmentIndex = 1`, `lastEndTime = 0`, then the
global quality gate (QUALITY_ALERT warning when timeline discrepancy > 60 s,
segment density < 1/min, or failure rate > 30%). -/
def processChunkResults (chunkResults : List ChunkResult) (speedFactor : ℚ) :
    List TranscriptionSegment × List StitchWarning :=
  let sortedResults := sortByChunkIndex chunkResults
  let st := stitchAll speedFactor 0 ⟨[], [], 1, 0⟩ sortedResults
  let totalExpectedDuration : ℚ :=
    match sortedResults.getLast? with
    | some r => r.chunkStartTime + r.chunkDuration
    | none => 0
  let timelineDiscrepancy := |st.lastEndTime - totalExpectedDuration|
  let failedChunks := (sortedResults.filter fun r => !r.success).length
  let totalChunks := sortedResults.length
  let failureRate : ℚ := if 0 < totalChunks then (failedChunks : ℚ) / (totalChunks : ℚ) else 0
  if 60 < timelineDiscrepancy ∨ (st.segments.length : ℚ) < totalExpectedDuration / 60 ∨
      3 / 10 < failureRate then
    (st.segments, st.warnings ++ [StitchWarning.qualityAlert timelineDiscrepancy failureRate])
  else
    (st.segments, st.warnings)

/-! ### Job orchestrator outcome
(`TranscriptionService.transcribeAudio`, transcriptionService.ts 130-334)

The success path of `transcribeAudio` after the batch phase, as a function of
the chunk results delivered by the final transcription attempt: any failed
chunk makes the attempt loop throw; then the zero-segments guard; then
stitching; then the empty-final-segments guard; otherwise the job record is
built with `status: 'completed'` (line 230) unconditionally. -/

structure TranscriptionOutcome where
  status : String
  segments : List TranscriptionSegment
  warnings : List StitchWarning
deriving DecidableEq

def transcribeAudioOutcome (chunkResults : List ChunkResult) (speedFactor : ℚ) :
    Except String TranscriptionOutcome :=
  if chunkResults.any (fun r => !r.success) then
    .error "chunks falharam na transcricao"
  else
    let totalSegments := chunkResults.foldl (fun acc r => acc + (r.segments.getD []).length) 0
    if totalSegments = 0 then
      .error "FALHA CRITICA: Nenhum segmento foi transcrito com sucesso"
    else
      let stitched := processChunkResults chunkResults speedFactor
      if stitched.1.length = 0 then
        .error "FALHA CRITICA: Nenhum segmento final foi gerado"
      else
        .ok { status := "completed", segments := stitched.1, warnings := stitched.2 }

/-- Modelled from the spec: the final-status rule claimed in C1
("`completed` if zero chunks failed and no QUALITY_ALERT;
`completed_with_warnings` if the stitcher emitted any warnings but a full
segment list exists; `failed` otherwise", with the warnings clause taking
precedence as the claim's own example dictates).  Stated only to be compared
with the behaviour of `transcribeAudioOutcome`. -/
def claimedFinalStatus (failedChunks : ℕ) (warnings : List StitchWarning)
    (hasFullSegmentList : Bool) : String :=
  if warnings ≠ [] ∧ hasFullSegmentList = true then "completed_with_warnings"
  else if failedChunks = 0 ∧ warnings.any isQualityAlert = false then "completed"
  else "failed"

/-! ### Transcription client — silent-failure validation
(`WhisperService.validateWhisperResponse` / `detectRepeatedSegments` /
`normalizeSegmentText`, whisperService.ts) -/

def REPETITION_THRESHOLD : ℕ := 3

def MIN_REPETITION_LENGTH : ℕ := 5

/-- `WhisperService.normalizeSegmentText`: NFKD-normalise (identity on the
ASCII fragment modelled here), strip characters outside letters / digits /
whitespace, collapse whitespace runs to single spaces, trim, lowercase. -/
def normalizeSegmentText (text : String) : String :=
  String.mk
    ((trimChars (collapseWhitespace
        (text.data.filter fun c => c.isAlpha || c.isDigit || c.isWhitespace) false)).map
      Char.toLower)

/-- `WhisperService.detectRepeatedSegments` as a predicate: `true` when some
run of `REPETITION_THRESHOLD = 3` consecutive segments has identical
normalised text whose length is at least `MIN_REPETITION_LENGTH = 5` (the
source then throws to fail the attempt). -/
def detectRepeatedSegments : List WhisperSegment → Bool
  | s0 :: s1 :: s2 :: rest =>
    let baseText := normalizeSegmentText s0.text
    if MIN_REPETITION_LENGTH ≤ baseText.length
        && normalizeSegmentText s1.text == baseText
        && normalizeSegmentText s2.text == baseText then
      true
    else
      detectRepeatedSegments (s1 :: s2 :: rest)
  | _ => false

/-- `WhisperService.validateWhisperResponse` as a predicate: `true` when the
attempt passes, `false` when the source would throw (empty segment list, or
minimal text with suspiciously short duration, or a repeated-segment run). -/
def validateWhisperResponse (response : WhisperResponse) (chunk : AudioChunk) : Bool :=
  let segments := response.segments
  let trimmedTextLength := (trimString (response.text.getD "")).length
  let responseDuration := response.duration.getD 0
  let isEmptyResult : Bool := segments.isEmpty
  let hasMinimalText : Bool := decide (trimmedTextLength < 10)
  let isSuspiciouslyShort : Bool := decide (responseDuration < chunk.duration * (1 / 10))
  if isEmptyResult || (hasMinimalText && isSuspiciouslyShort) then false
  else !detectRepeatedSegments segments

/-- The property `detectRepeatedSegments` decides, written out: some run of
three consecutive segments has identical normalised text of length ≥ 5. -/
def HasRepeatedRun (segments : List WhisperSegment) : Prop :=
  ∃ pre a b c post, segments = pre ++ a :: b :: c :: post ∧
    normalizeSegmentText b.text = normalizeSegmentText a.text ∧
    normalizeSegmentText c.text = normalizeSegmentText a.text ∧
    MIN_REPETITION_LENGTH ≤ (normalizeSegmentText a.text).length

/-! ### Transcription client — cache path
(`WhisperService.transcribeChunk`, whisperService.ts 403-433)

The on-disk cache file for a chunk is embedded as
`Option (Option WhisperResponse)`: `none` when the file does not exist,
`some none` when it exists but `JSON.parse` throws, `some (some data)` when
it parses.  `hit` is the early `return` with the cached payload;
`proceed deleted` is falling through to the Whisper call (after
`fs.unlinkSync` iff `deleted`). -/

inductive CachePathResult where
  | hit (result : ChunkResult)
  | proceed (cacheDeleted : Bool)
deriving DecidableEq

def transcribeChunkCachePath (chunk : AudioChunk)
    (cacheFile : Option (Option WhisperResponse)) : CachePathResult :=
  match cacheFile with
  | none => .proceed false
  | some none => .proceed true
  | some (some cachedData) =>
    .hit
      { chunkIndex := chunk.index
        chunkPath := chunk.path
        chunkStartTime := chunk.startTime
        chunkDuration := chunk.duration
        success := true
        segments := some cachedData.segments
        error := none
        retries := 0
        duration := cachedData.duration }

/-! ### Batch coordinator
(`WhisperService.transcribeChunks`, whisperService.ts 304-360)

The per-chunk processing of one global attempt is abstracted into an outcome
oracle `outcome : ℕ → AudioChunk → ChunkResult` (attempt number, chunk); the
loop runs up to `maxGlobalRetries = 3` attempts, returns the results sorted
by chunk index when an attempt has zero failures, and otherwise throws the
FALHA CRITICA error after the third failed attempt. -/

def maxGlobalRetries : ℕ := 3

def transcribeChunksAux (outcome : ℕ → AudioChunk → ChunkResult)
    (chunks : List AudioChunk) : ℕ → ℕ → Except String (List ChunkResult)
  | _, 0 => .error "FALHA CRITICA: Impossivel processar todos os chunks apos 3 tentativas"
  | attempt, remaining + 1 =>
    let results := chunks.map (outcome attempt)
    if results.all (fun r => r.success) then .ok (sortByChunkIndex results)
    else transcribeChunksAux outcome chunks (attempt + 1) remaining

def transcribeChunks (outcome : ℕ → AudioChunk → ChunkResult) (chunks : List AudioChunk) :
    Except String (List ChunkResult) :=
  transcribeChunksAux outcome chunks 1 maxGlobalRetries

/-! ### Chunk planner
(`AudioProcessor.planSilenceBasedChunks`, audioProcessor.ts 355-459) -/

def silenceCenter (s : SilenceSegment) : ℚ := s.start + s.duration / 2

/-- `candidateSilences.reduce(...)`: the silence whose centre is closest to
`targetEnd`, scanning left to right and keeping the incumbent on ties. -/
def bestSilence (targetEnd : ℚ) (c : SilenceSegment) (cs : List SilenceSegment) :
    SilenceSegment :=
  cs.foldl
    (fun best current =>
      if |silenceCenter current - targetEnd| < |silenceCenter best - targetEnd| then current
      else best)
    c

structure CutChoice where
  targetEnd : ℚ
  cutEnd : ℚ
  usedSilence : Bool
  silenceStart : Option ℚ
  silenceEnd : Option ℚ
deriving DecidableEq

/-- One iteration of `planSilenceBasedChunks` up to (not including) the
final `actualEnd = Math.min(actualEnd, totalDuration)` clamp: target
boundary, snap-to-silence within `±silenceWindow`, then the
minimum-chunk-duration adjustment. -/
def chooseCutPoint (totalDuration idealChunkDuration silenceWindow minChunkDuration : ℚ)
    (silences : List SilenceSegment) (currentStart : ℚ) : CutChoice :=
  let remainingDuration := totalDuration - currentStart
  let targetDuration := min idealChunkDuration remainingDuration
  let targetEnd := currentStart + targetDuration
  let windowStart := max 0 (targetEnd - silenceWindow)
  let windowEnd := min totalDuration (targetEnd + silenceWindow)
  let candidateSilences := silences.filter fun s =>
    decide (windowStart ≤ s.start) && decide (s.«end» ≤ windowEnd)
  let first : CutChoice :=
    match candidateSilences with
    | [] => ⟨targetEnd, targetEnd, false, none, none⟩
    | c :: cs =>
      let best := bestSilence targetEnd c cs
      ⟨targetEnd, silenceCenter best, true, some best.start, some best.«end»⟩
  if first.cutEnd - currentStart < minChunkDuration ∧ minChunkDuration < remainingDuration then
    ⟨targetEnd, min (currentStart + minChunkDuration) totalDuration, false, none, none⟩
  else first

/-- The clamped cut boundary for the chunk starting at `currentStart`. -/
def planActualEnd (totalDuration idealChunkDuration silenceWindow minChunkDuration : ℚ)
    (silences : List SilenceSegment) (currentStart : ℚ) : ℚ :=
  min (chooseCutPoint totalDuration idealChunkDuration silenceWindow minChunkDuration
        silences currentStart).cutEnd
    totalDuration

/-- The plan record pushed for the chunk starting at `currentStart`. -/
def mkPlan (totalDuration idealChunkDuration silenceWindow minChunkDuration
    estimatedBytesPerSecond : ℚ) (silences : List SilenceSegment) (currentStart : ℚ)
    (chunkIndex : ℕ) : SmartChunkPlan :=
  let choice := chooseCutPoint totalDuration idealChunkDuration silenceWindow minChunkDuration
    silences currentStart
  let actualEnd := planActualEnd totalDuration idealChunkDuration silenceWindow
    minChunkDuration silences currentStart
  { index := chunkIndex
    targetStart := currentStart
    targetEnd := choice.targetEnd
    actualStart := currentStart
    actualEnd := actualEnd
    duration := actualEnd - currentStart
    usedSilence := choice.usedSilence
    silenceStart := choice.silenceStart
    silenceEnd := choice.silenceEnd
    estimatedSizeMB := (actualEnd - currentStart) * estimatedBytesPerSecond / (1024 * 1024) }

/-- The `while (currentStart < totalDuration)` loop.  The source's own
safety valve stops at `chunkIndex > 1000`, so 1002 units of structural fuel
(passed by `planSilenceBasedChunks`) are never exhausted; the `< 0.1 s`
break discards the tail, the two trailing breaks stop after a pushed plan. -/
def planSilenceBasedChunksAux (totalDuration idealChunkDuration silenceWindow
    minChunkDuration estimatedBytesPerSecond : ℚ) (silences : List SilenceSegment) :
    ℕ → ℚ → ℕ → List SmartChunkPlan
  | 0, _, _ => []
  | fuel + 1, currentStart, chunkIndex =>
    if currentStart < totalDuration then
      if planActualEnd totalDuration idealChunkDuration silenceWindow minChunkDuration
          silences currentStart - currentStart < 1 / 10 then []
      else
        mkPlan totalDuration idealChunkDuration silenceWindow minChunkDuration
            estimatedBytesPerSecond silences currentStart chunkIndex ::
          (if totalDuration ≤ planActualEnd totalDuration idealChunkDuration silenceWindow
              minChunkDuration silences currentStart then []
           else if 1000 < chunkIndex + 1 then []
           else
             planSilenceBasedChunksAux totalDuration idealChunkDuration silenceWindow
               minChunkDuration estimatedBytesPerSecond silences fuel
               (planActualEnd totalDuration idealChunkDuration silenceWindow minChunkDuration
                 silences currentStart)
               (chunkIndex + 1))
    else []

def planSilenceBasedChunks (totalDuration idealChunkDuration : ℚ)
    (silences : List SilenceSegment)
    (silenceWindow minChunkDuration estimatedBytesPerSecond : ℚ) : List SmartChunkPlan :=
  planSilenceBasedChunksAux totalDuration idealChunkDuration silenceWindow minChunkDuration
    estimatedBytesPerSecond silences 1002 0 0

/-! ### Chunk emission and the post-cut size check
(`AudioProcessor.createSmartChunks`, audioProcessor.ts 296-340)

After cutting each planned chunk the source stats the produced file; a size
above 18 MiB throws `Chunk ... exceeds 18MB limit` (audioProcessor.ts
305-317), otherwise the chunk is appended.  The encoded size of a cut is
abstracted as an oracle on plans. -/

def maxChunkBytes : ℕ := 18 * 1024 * 1024

def chunkFileName (n : ℕ) : String := "chunk_" ++ pad3 n ++ ".mp3"

def planToAudioChunk (plan : SmartChunkPlan) : AudioChunk :=
  { index := plan.index
    path := chunkFileName (plan.index + 1)
    duration := plan.duration
    startTime := plan.actualStart }

def emitPlannedChunks : List SmartChunkPlan → (SmartChunkPlan → ℕ) →
    Except String (List AudioChunk)
  | [], _ => .ok []
  | plan :: rest, encodedSizeBytes =>
    if maxChunkBytes < encodedSizeBytes plan then
      .error ("Chunk " ++ toString plan.index ++ " exceeds 18MB limit")
    else
      match emitPlannedChunks rest encodedSizeBytes with
      | .ok chunks => .ok (planToAudioChunk plan :: chunks)
      | .error e => .error e

/-! ### Request validation and job status
(`transcribeRequestSchema` and the `/status` route, caption.ts;
`SPEED_FACTOR` default, env.ts) -/

/-- `SPEED_FACTOR: Joi.number().default(2.0)` in `src/config/env.ts`. -/
def speedFactorDefault : ℚ := 2

/-- The Joi schema `transcribeRequestSchema`
(`speed: Joi.number().min(1).max(3).optional()`,
`format: Joi.string().valid('json','srt','txt').optional().default('json')`)
with Joi's validation semantics: `min`/`max` reject out-of-range values, the
`default` fills an absent key. -/
def transcribeRequestValidate (speed : Option ℚ) (format : Option String) :
    Except String (Option ℚ × String) :=
  let formatResult : Except String String :=
    match format with
    | none => .ok "json"
    | some f =>
      if f = "json" ∨ f = "srt" ∨ f = "txt" then .ok f
      else .error "format must be one of [json, srt, txt]"
  match speed with
  | some s =>
    if s < 1 then .error "speed must be greater than or equal to 1"
    else if 3 < s then .error "speed must be less than or equal to 3"
    else formatResult.map fun f => (some s, f)
  | none => formatResult.map fun f => (none, f)

/-- `speedFactor ?? config.audio.speedFactor ?? 2.0`
(transcriptionService.ts 34). -/
def effectiveSpeedFactor (speedFactor configSpeedFactor : Option ℚ) : ℚ :=
  speedFactor.getD (configSpeedFactor.getD 2)

/-- `TranscriptionService.getJobStatus` (transcriptionService.ts 516-524) as
a function of the two `fs.existsSync` probes: the pair
`(exists, completed)`. -/
def getJobStatus (tempDirExists logFileExists : Bool) : Bool × Bool :=
  (tempDirExists || logFileExists, !tempDirExists && logFileExists)

/-! ### Lemmas about the chunk-index sort -/

theorem mem_insertByIdx {a r : ChunkResult} :
    ∀ {l : List ChunkResult}, a ∈ insertByIdx r l ↔ a = r ∨ a ∈ l := by
  intro l
  induction l with
  | nil => simp [insertByIdx]
  | cons x xs ih =>
    by_cases h : r.chunkIndex ≤ x.chunkIndex
    · simp [insertByIdx, h]
    · simp [insertByIdx, h, ih]
      tauto

theorem mem_sortByChunkIndex {a : ChunkResult} :
    ∀ {l : List ChunkResult}, a ∈ sortByChunkIndex l ↔ a ∈ l := by
  intro l
  induction l with
  | nil => simp [sortByChunkIndex]
  | cons x xs ih => simp [sortByChunkIndex, mem_insertByIdx, ih]

theorem pairwise_insertByIdx {r : ChunkResult} :
    ∀ {l : List ChunkResult},
      l.Pairwise (fun x y => x.chunkIndex ≤ y.chunkIndex) →
      (insertByIdx r l).Pairwise (fun x y => x.chunkIndex ≤ y.chunkIndex) := by
  intro l
  induction l with
  | nil => intro _; simp [insertByIdx]
  | cons x xs ih =>
    intro h
    rw [List.pairwise_cons] at h
    by_cases hle : r.chunkIndex ≤ x.chunkIndex
    · rw [insertByIdx, if_pos hle, List.pairwise_cons]
      refine ⟨?_, List.pairwise_cons.2 h⟩
      intro b hb
      rcases List.mem_cons.1 hb with hb | hb
      · exact hb ▸ hle
      · exact le_trans hle (h.1 b hb)
    · rw [insertByIdx, if_neg hle, List.pairwise_cons]
      refine ⟨?_, ih h.2⟩
      intro b hb
      rcases mem_insertByIdx.1 hb with hb | hb
      · exact hb ▸ le_of_lt (lt_of_not_le hle)
      · exact h.1 b hb

theorem pairwise_sortByChunkIndex :
    ∀ (l : List ChunkResult),
      (sortByChunkIndex l).Pairwise (fun x y => x.chunkIndex ≤ y.chunkIndex) := by
  intro l
  induction l with
  | nil => simp [sortByChunkIndex]
  | cons x xs ih => exact pairwise_insertByIdx ih

/-! ### Lemmas about the batch coordinator -/

theorem transcribeChunksAux_ok {outcome : ℕ → AudioChunk → ChunkResult}
    {chunks : List AudioChunk} :
    ∀ {remaining attempt : ℕ} {res : List ChunkResult},
      transcribeChunksAux outcome chunks attempt remaining = .ok res →
      res.all (fun r => r.success) = true ∧
        res.Pairwise (fun x y => x.chunkIndex ≤ y.chunkIndex) := by
  intro remaining
  induction remaining with
  | zero => intro attempt res h; exact absurd h (by simp [transcribeChunksAux])
  | succ n ih =>
    intro attempt res h
    rw [transcribeChunksAux] at h
    by_cases hall : ((chunks.map (outcome attempt)).all fun r => r.success) = true
    · rw [if_pos hall] at h
      injection h with h
      subst h
      constructor
      · rw [List.all_eq_true] at hall ⊢
        intro r hr
        exact hall r (mem_sortByChunkIndex.1 hr)
      · exact pairwise_sortByChunkIndex _
    · rw [if_neg hall] at h
      exact ih h

theorem transcribeChunksAux_error {outcome : ℕ → AudioChunk → ChunkResult}
    {chunks : List AudioChunk} :
    ∀ {remaining attempt : ℕ},
      (∀ a, attempt ≤ a → a < attempt + remaining →
        ((chunks.map (outcome a)).all fun r => r.success) = false) →
      transcribeChunksAux outcome chunks attempt remaining =
        .error "FALHA CRITICA: Impossivel processar todos os chunks apos 3 tentativas" := by
  intro remaining
  induction remaining with
  | zero => intro attempt _; rfl
  | succ n ih =>
    intro attempt h
    rw [transcribeChunksAux]
    have hfail := h attempt le_rfl (by omega)
    rw [if_neg (by simp [hfail])]
    exact ih fun a ha ha' => h a (by omega) (by omega)

/-! ### Concrete inputs for the batch-coordinator claims -/

def c2FailChunk : AudioChunk :=
  { index := 1, path := "chunk_001.mp3", duration := 60, startTime := 0 }

/-- An outcome oracle on which every attempt at every chunk fails the silent
check. -/
def c2AlwaysFail : ℕ → AudioChunk → ChunkResult := fun _ chunk =>
  { chunkIndex := chunk.index
    chunkPath := chunk.path
    chunkStartTime := chunk.startTime
    chunkDuration := chunk.duration
    success := false
    segments := none
    error := some "Whisper API returned suspicious result: No segments returned"
    retries := 5
    duration := none }

def c2Chunk1 : AudioChunk :=
  { index := 1, path := "chunk_001.mp3", duration := 60, startTime := 0 }

def c2Chunk2 : AudioChunk :=
  { index := 2, path := "chunk_002.mp3", duration := 60, startTime := 60 }

/-- An outcome oracle on which every chunk succeeds at the first attempt. -/
def c2SuccessOutcome : ℕ → AudioChunk → ChunkResult := fun _ chunk =>
  { chunkIndex := chunk.index
    chunkPath := chunk.path
    chunkStartTime := chunk.startTime
    chunkDuration := chunk.duration
    success := true
    segments := some [⟨0, 1, "ola"⟩]
    error := none
    retries := 0
    duration := some 30 }

def c2WitnessRes : List ChunkResult :=
  [{ chunkIndex := 1, chunkPath := "chunk_001.mp3", chunkStartTime := 0, chunkDuration := 60,
     success := true, segments := some [⟨0, 1, "ola"⟩], error := none, retries := 0,
     duration := some 30 },
   { chunkIndex := 2, chunkPath := "chunk_002.mp3", chunkStartTime := 60, chunkDuration := 60,
     success := true, segments := some [⟨0, 1, "ola"⟩], error := none, retries := 0,
     duration := some 30 }]

/-- Claim C2, counterexample: when the failed set is still non-empty after
the three global attempts, `transcribeChunks` does NOT return the partial
result set — it throws the FALHA CRITICA error.  Here a single chunk fails
every attempt. -/
theorem c2_partial_failure_counterexample :
    transcribeChunks c2AlwaysFail [c2FailChunk] =
      .error "FALHA CRITICA: Impossivel processar todos os chunks apos 3 tentativas" ∧
    isErrB (transcribeChunks c2AlwaysFail [c2FailChunk]) = true :=
  ⟨rfl, rfl⟩

/-- Claim C2 (amended): if every one of the three global attempts leaves a
failed chunk, `transcribeChunks` raises an error instead of returning a
partial result set; and any result set it does return is fully successful
(never partial) and sorted by chunk index. -/
theorem c2_batch_retry_amended :
    (∀ (outcome : ℕ → AudioChunk → ChunkResult) (chunks : List AudioChunk),
        (∀ a, 1 ≤ a → a ≤ 3 → ((chunks.map (outcome a)).all fun r => r.success) = false) →
        transcribeChunks outcome chunks =
          .error "FALHA CRITICA: Impossivel processar todos os chunks apos 3 tentativas") ∧
    (∀ (outcome : ℕ → AudioChunk → ChunkResult) (chunks : List AudioChunk)
        (res : List ChunkResult),
        transcribeChunks outcome chunks = .ok res →
        (res.all fun r => r.success) = true ∧
          res.Pairwise fun x y => x.chunkIndex ≤ y.chunkIndex) := by
  constructor
  · intro outcome chunks h
    exact transcribeChunksAux_error fun a ha ha' => h a ha (by
      simp only [maxGlobalRetries] at ha'; omega)
  · intro outcome chunks res h
    exact transcribeChunksAux_ok h

/-- Witness for C2 (amended): the persistent-failure half at the concrete
always-failing oracle, and the success half at a two-chunk batch handed to
the coordinator out of order. -/
theorem c2_batch_retry_amended_witness :
    transcribeChunks c2AlwaysFail [c2FailChunk] =
        .error "FALHA CRITICA: Impossivel processar todos os chunks apos 3 tentativas" ∧
    ((c2WitnessRes.all fun r => r.success) = true ∧
      c2WitnessRes.Pairwise fun x y => x.chunkIndex ≤ y.chunkIndex) :=
  ⟨c2_batch_retry_amended.1 c2AlwaysFail [c2FailChunk] (fun _ _ _ => rfl),
   c2_batch_retry_amended.2 c2SuccessOutcome [c2Chunk2, c2Chunk1] c2WitnessRes rfl⟩

/-! ### C3: post-cut size enforcement -/

def c3OversizePlan : SmartChunkPlan :=
  { index := 0, targetStart := 0, targetEnd := 600, actualStart := 0, actualEnd := 600,
    duration := 600, usedSilence := false, silenceStart := none, silenceEnd := none,
    estimatedSizeMB := 19 }

def c3WitnessPlan : SmartChunkPlan :=
  { index := 0, targetStart := 0, targetEnd := 60, actualStart := 0, actualEnd := 60,
    duration := 60, usedSilence := false, silenceStart := none, silenceEnd := none,
    estimatedSizeMB := 1 }

/-- Claim C3, counterexample: a planned chunk whose encoded size exceeds
18 MiB is not halved and re-emitted with a warning — `createSmartChunks`
throws, so the job fails.  Here the single planned chunk encodes to
19 MiB. -/
theorem c3_oversize_counterexample :
    emitPlannedChunks [c3OversizePlan] (fun _ => 19 * 1024 * 1024) =
      .error "Chunk 0 exceeds 18MB limit" ∧
    isErrB (emitPlannedChunks [c3OversizePlan] (fun _ => 19 * 1024 * 1024)) = true :=
  ⟨rfl, rfl⟩

/-- Claim C3 (amended): `createSmartChunks` performs no halving retry; a cut
chunk whose encoded size exceeds 18 MiB makes it throw (the job fails), so
whenever it returns successfully every plan's encoded size is at most
18 MiB and the emitted chunks are exactly the plans, in order. -/
theorem c3_size_enforcement_amended :
    ∀ (plans : List SmartChunkPlan) (encodedSizeBytes : SmartChunkPlan → ℕ)
      (res : List AudioChunk),
      emitPlannedChunks plans encodedSizeBytes = .ok res →
      (∀ p ∈ plans, encodedSizeBytes p ≤ maxChunkBytes) ∧
        res = plans.map planToAudioChunk := by
  intro plans
  induction plans with
  | nil =>
    intro sz res h
    rw [emitPlannedChunks] at h
    injection h with h
    subst h
    exact ⟨by simp, by simp⟩
  | cons p rest ih =>
    intro sz res h
    rw [emitPlannedChunks] at h
    by_cases hle : maxChunkBytes < sz p
    · rw [if_pos hle] at h
      exact absurd h (by simp)
    · rw [if_neg hle] at h
      cases hrec : emitPlannedChunks rest sz with
      | error e => rw [hrec] at h; exact absurd h (by simp)
      | ok chunks =>
        rw [hrec] at h
        injection h with h
        subst h
        obtain ⟨h1, h2⟩ := ih sz chunks hrec
        refine ⟨?_, by simp [h2]⟩
        intro q hq
        rcases List.mem_cons.1 hq with rfl | hq
        · exact le_of_not_lt hle
        · exact h1 q hq

/-- Witness for C3 (amended) at a single in-bounds plan (1000-byte cut). -/
theorem c3_size_enforcement_amended_witness :
    1000 ≤ maxChunkBytes ∧
      [planToAudioChunk c3WitnessPlan] = [c3WitnessPlan].map planToAudioChunk :=
  have h : emitPlannedChunks [c3WitnessPlan] (fun _ => 1000) =
      .ok [planToAudioChunk c3WitnessPlan] := rfl
  have hc := c3_size_enforcement_amended [c3WitnessPlan] (fun _ => 1000)
    [planToAudioChunk c3WitnessPlan] h
  ⟨hc.1 c3WitnessPlan (List.mem_singleton.2 rfl), hc.2⟩

/-! ### C5: the cache path of `transcribeChunk` -/

def c5Chunk : AudioChunk :=
  { index := 1, path := "chunk_001.mp3", duration := 10, startTime := 0 }

/-- A parseable cached payload whose reported duration (100 s) is ten times
the chunk's duration (10 s) — far beyond any 5% tolerance. -/
def c5Cached : WhisperResponse :=
  { task := "transcribe", language := "pt", duration := some 100, text := some "ola",
    segments := [⟨0, 1, "ola"⟩] }

/-- Claim C5, counterexample: the cache path performs no duration
validation.  With a cached payload reporting 100 s against a 10 s chunk
(mismatch far beyond 5%), `transcribeChunk` still returns the cached hit
with `retries = 0` instead of deleting the file and re-transcribing. -/
theorem c5_cache_validation_counterexample :
    transcribeChunkCachePath c5Chunk (some (some c5Cached)) =
      .hit { chunkIndex := 1, chunkPath := "chunk_001.mp3", chunkStartTime := 0,
             chunkDuration := 10, success := true, segments := some [⟨0, 1, "ola"⟩],
             error := none, retries := 0, duration := some 100 } ∧
    ¬(|(100 : ℚ) - 10| ≤ 10 * (5 / 100)) := by
  refine ⟨rfl, ?_⟩
  rw [show ((100 : ℚ) - 10) = 90 by norm_num,
    show |(90 : ℚ)| = 90 from abs_of_nonneg (by norm_num)]
  norm_num

/-- Claim C5 (amended): on a cache hit the only validation is that the file
parses.  A parseable payload is returned as an immediate success carrying
the cached segments and reported duration with `retries = 0` (no external
call), regardless of the chunk's duration; an unparseable file is deleted
and the chunk proceeds to transcription; a missing file proceeds without
deleting. -/
theorem c5_cache_hit_amended (chunk : AudioChunk) (cachedData : WhisperResponse) :
    transcribeChunkCachePath chunk (some (some cachedData)) =
        .hit { chunkIndex := chunk.index, chunkPath := chunk.path,
               chunkStartTime := chunk.startTime, chunkDuration := chunk.duration,
               success := true, segments := some cachedData.segments, error := none,
               retries := 0, duration := cachedData.duration } ∧
      transcribeChunkCachePath chunk (some none) = .proceed true ∧
      transcribeChunkCachePath chunk none = .proceed false :=
  ⟨rfl, rfl, rfl⟩

/-! ### C9: request validation of `speed` -/

/-- Claim C9, counterexample: a numeric `speed` outside [1, 3] is not
clamped into range; the Joi schema rejects the request.  At `speed = 5` the
validation yields an error, not `.ok` with the clamped value 3. -/
theorem c9_clamp_counterexample :
    transcribeRequestValidate (some 5) none =
      .error "speed must be less than or equal to 3" ∧
    transcribeRequestValidate (some 5) none ≠ .ok (some 3, "json") := by
  have h : transcribeRequestValidate (some 5) none =
      .error "speed must be less than or equal to 3" := by
    norm_num [transcribeRequestValidate]
  exact ⟨h, by rw [h]; exact fun hh => Except.noConfusion hh⟩

/-- Claim C9 (amended): a provided `speed` outside [1, 3] is rejected by the
schema (the request fails with 400 rather than proceeding clamped); an
in-range `speed` passes through unchanged; an omitted `speed` validates and
the effective speed factor then falls back to the configured `SPEED_FACTOR`,
whose default is 2.0. -/
theorem c9_speed_validation_amended (s : ℚ) :
    ((s < 1 ∨ 3 < s) → isErrB (transcribeRequestValidate (some s) none) = true) ∧
      (1 ≤ s → s ≤ 3 → transcribeRequestValidate (some s) none = .ok (some s, "json")) ∧
      transcribeRequestValidate none none = .ok (none, "json") ∧
      effectiveSpeedFactor none (some speedFactorDefault) = 2 := by
  refine ⟨?_, ?_, rfl, rfl⟩
  · rintro (h | h)
    · simp [transcribeRequestValidate, h, isErrB]
    · have h1 : ¬s < 1 := by linarith
      simp [transcribeRequestValidate, h, h1, isErrB]
  · intro h1 h3
    have h1' : ¬s < 1 := not_lt.2 h1
    have h3' : ¬3 < s := not_lt.2 h3
    simp [transcribeRequestValidate, h1', h3', Except.map]

/-- Witness for C9 (amended): rejection at `speed = 5`, acceptance at
`speed = 2`. -/
theorem c9_speed_validation_amended_witness :
    isErrB (transcribeRequestValidate (some 5) none) = true ∧
      transcribeRequestValidate (some 2) none = .ok (some 2, "json") :=
  ⟨(c9_speed_validation_amended 5).1 (Or.inr (by norm_num)),
   (c9_speed_validation_amended 2).2.1 (by norm_num) (by norm_num)⟩

/-! ### C10: job status -/

/-- Claim C10: `getJobStatus` never reports a job as completed but not
existing — whenever `completed` is true (temp dir absent, log file present)
`exists` is also true. -/
theorem c10_completed_implies_exists :
    ∀ tempDirExists logFileExists : Bool,
      (getJobStatus tempDirExists logFileExists).2 = true →
      (getJobStatus tempDirExists logFileExists).1 = true := by
  decide

/-- Witness for C10 at the completed configuration (temp dir absent, log
file present). -/
theorem c10_completed_implies_exists_witness :
    (getJobStatus false true).1 = true :=
  c10_completed_implies_exists false true (by decide)

/-! ### C8: silent-failure validation -/

theorem hasRepeatedRun_cons {x : WhisperSegment} {l : List WhisperSegment} :
    HasRepeatedRun (x :: l) ↔
      (∃ b c post, l = b :: c :: post ∧
        normalizeSegmentText b.text = normalizeSegmentText x.text ∧
        normalizeSegmentText c.text = normalizeSegmentText x.text ∧
        MIN_REPETITION_LENGTH ≤ (normalizeSegmentText x.text).length) ∨
      HasRepeatedRun l := by
  constructor
  · rintro ⟨pre, a, b, c, post, heq, hb, hc, hlen⟩
    cases pre with
    | nil =>
      simp only [List.nil_append, List.cons.injEq] at heq
      obtain ⟨rfl, rfl⟩ := heq
      exact Or.inl ⟨b, c, post, rfl, hb, hc, hlen⟩
    | cons y pre' =>
      simp only [List.cons_append, List.cons.injEq] at heq
      obtain ⟨rfl, rfl⟩ := heq
      exact Or.inr ⟨pre', a, b, c, post, rfl, hb, hc, hlen⟩
  · rintro (⟨b, c, post, rfl, hb, hc, hlen⟩ | ⟨pre, a, b, c, post, heq, hb, hc, hlen⟩)
    · exact ⟨[], x, b, c, post, rfl, hb, hc, hlen⟩
    · exact ⟨x :: pre, a, b, c, post, by rw [heq]; rfl, hb, hc, hlen⟩

theorem hasRepeatedRun_short {l : List WhisperSegment} (h : l.length < 3) :
    ¬HasRepeatedRun l := by
  rintro ⟨pre, a, b, c, post, heq, -, -, -⟩
  rw [heq] at h
  simp [List.length_append] at h
  omega

theorem detectRepeatedSegments_iff :
    ∀ l : List WhisperSegment, detectRepeatedSegments l = true ↔ HasRepeatedRun l := by
  intro l
  induction l with
  | nil =>
    simp only [detectRepeatedSegments]
    exact ⟨fun h => absurd h (by simp), fun h => absurd h (hasRepeatedRun_short (by simp))⟩
  | cons s0 tail ih =>
    cases tail with
    | nil =>
      simp only [detectRepeatedSegments]
      exact ⟨fun h => absurd h (by simp), fun h => absurd h (hasRepeatedRun_short (by simp))⟩
    | cons s1 t2 =>
      cases t2 with
      | nil =>
        simp only [detectRepeatedSegments]
        exact ⟨fun h => absurd h (by simp), fun h => absurd h (hasRepeatedRun_short (by simp))⟩
      | cons s2 rest =>
        rw [detectRepeatedSegments, hasRepeatedRun_cons, ← ih]
        constructor
        · intro h
          split_ifs at h with hcond
          · simp only [Bool.and_eq_true, decide_eq_true_eq, beq_iff_eq] at hcond
            exact Or.inl ⟨s1, s2, rest, rfl, hcond.1.2, hcond.2, hcond.1.1⟩
          · exact Or.inr h
        · rintro (⟨b, c, post, heq, hb, hc, hlen⟩ | h)
          · obtain ⟨rfl, rfl, rfl⟩ : s1 = b ∧ s2 = c ∧ rest = post := by
              injection heq with h1 h2
              injection h2 with h2 h3
              exact ⟨h1, h2, h3⟩
            rw [if_pos]
            simp only [Bool.and_eq_true, decide_eq_true_eq, beq_iff_eq]
            exact ⟨⟨hlen, hb⟩, hc⟩
          · split_ifs with hcond
            · rfl
            · exact h

/-- Claim C8: for a structurally valid service response, the silent-failure
validation fails the attempt if and only if the segment list is empty, or
the trimmed response text is shorter than 10 characters while the reported
duration is below 10% of the chunk duration, or some run of 3 consecutive
segments has identical normalised text of at least 5 characters. -/
theorem c8_silent_failure_iff (response : WhisperResponse) (chunk : AudioChunk) :
    validateWhisperResponse response chunk = false ↔
      response.segments = [] ∨
        ((trimString (response.text.getD "")).length < 10 ∧
          response.duration.getD 0 < chunk.duration * (1 / 10)) ∨
        HasRepeatedRun response.segments := by
  simp only [validateWhisperResponse]
  by_cases hE : response.segments.isEmpty
  · have hseg : response.segments = [] := by
      simpa using hE
    simp [hE, hseg]
  · have hseg : ¬response.segments = [] := by
      simpa using hE
    by_cases hM : (trimString (response.text.getD "")).length < 10
    · by_cases hS : response.duration.getD 0 < chunk.duration * (1 / 10)
      · rw [if_pos (by
          simp only [Bool.or_eq_true, Bool.and_eq_true, decide_eq_true_eq]
          exact Or.inr ⟨hM, hS⟩)]
        exact iff_of_true rfl (Or.inr (Or.inl ⟨hM, hS⟩))
      · rw [if_neg (by
          simp only [Bool.or_eq_true, Bool.and_eq_true, decide_eq_true_eq]
          rintro (h | ⟨h1, h2⟩)
          exacts [hE h, hS h2])]
        constructor
        · intro h
          have hd : detectRepeatedSegments response.segments = true := by
            cases hdd : detectRepeatedSegments response.segments
            · rw [hdd] at h; exact absurd h (by simp)
            · rfl
          exact Or.inr (Or.inr ((detectRepeatedSegments_iff _).1 hd))
        · rintro (h | ⟨h1, h2⟩ | h)
          · exact absurd h hseg
          · exact absurd h2 hS
          · rw [(detectRepeatedSegments_iff _).2 h]; rfl
    · rw [if_neg (by
        simp only [Bool.or_eq_true, Bool.and_eq_true, decide_eq_true_eq]
        rintro (h | ⟨h1, h2⟩)
        exacts [hE h, hM h1])]
      constructor
      · intro h
        have hd : detectRepeatedSegments response.segments = true := by
          cases hdd : detectRepeatedSegments response.segments
          · rw [hdd] at h; exact absurd h (by simp)
          · rfl
        exact Or.inr (Or.inr ((detectRepeatedSegments_iff _).1 hd))
      · rintro (h | ⟨h1, h2⟩ | h)
        · exact absurd h hseg
        · exact absurd h1 hM
        · rw [(detectRepeatedSegments_iff _).2 h]; rfl

/-! ### C4: the timestamp law of the stitcher -/

/-- A final transcript segment arising from the service segment `s` of a
chunk starting (original timeline) at `chunkStartTime`: start and end are
`s × F + T`, the text is the trimmed service text and is non-empty. -/
def FromSvcSeg (speedFactor chunkStartTime : ℚ) (s : WhisperSegment)
    (t : TranscriptionSegment) : Prop :=
  t.start = s.start * speedFactor + chunkStartTime ∧
    t.«end» = s.«end» * speedFactor + chunkStartTime ∧
    t.text = trimString s.text ∧ t.text ≠ ""

/-- A final transcript segment explained by some service segment of some
successful chunk result of the input. -/
def SegmentFromSource (chunkResults : List ChunkResult) (speedFactor : ℚ)
    (t : TranscriptionSegment) : Prop :=
  ∃ r ∈ chunkResults, r.success = true ∧ ∃ segs, r.segments = some segs ∧
    ∃ s ∈ segs, FromSvcSeg speedFactor r.chunkStartTime s t

theorem gapCheck_segments (i : ℕ) (st : StitchState) (result : ChunkResult) :
    (gapCheck i st result).segments = st.segments := by
  rw [gapCheck]; split <;> rfl

theorem stitchSegment_mem {speedFactor chunkStartTime : ℚ} {st : StitchState}
    {s : WhisperSegment} {t : TranscriptionSegment}
    (h : t ∈ (stitchSegment speedFactor chunkStartTime st s).segments) :
    t ∈ st.segments ∨ FromSvcSeg speedFactor chunkStartTime s t := by
  simp only [stitchSegment] at h
  split_ifs at h with h1 h2
  · exact Or.inl h
  · exact Or.inl h
  · rcases List.mem_append.1 h with h | h
    · exact Or.inl h
    · rcases List.mem_singleton.1 h with rfl
      exact Or.inr ⟨rfl, rfl, rfl, h1⟩

theorem foldl_stitchSegment_mem {speedFactor chunkStartTime : ℚ} :
    ∀ (L : List WhisperSegment) (st : StitchState) (t : TranscriptionSegment),
      t ∈ (L.foldl (stitchSegment speedFactor chunkStartTime) st).segments →
      t ∈ st.segments ∨ ∃ s ∈ L, FromSvcSeg speedFactor chunkStartTime s t := by
  intro L
  induction L with
  | nil => intro st t h; exact Or.inl h
  | cons s L ih =>
    intro st t h
    rw [List.foldl_cons] at h
    rcases ih _ t h with h | ⟨s', hs', hf⟩
    · rcases stitchSegment_mem h with h | hf
      · exact Or.inl h
      · exact Or.inr ⟨s, List.mem_cons_self s L, hf⟩
    · exact Or.inr ⟨s', List.mem_cons_of_mem s hs', hf⟩

theorem stitchChunk_mem {speedFactor : ℚ} {i : ℕ} {st : StitchState}
    {result : ChunkResult} {t : TranscriptionSegment}
    (h : t ∈ (stitchChunk speedFactor i st result).segments) :
    t ∈ st.segments ∨
      (result.success = true ∧ ∃ segs, result.segments = some segs ∧
        ∃ s ∈ segs, FromSvcSeg speedFactor result.chunkStartTime s t) := by
  rcases hsucc : result.success with _ | _ <;>
    rcases hsegs : result.segments with _ | segs <;>
    rw [stitchChunk, hsucc, hsegs] at h
  · rw [gapCheck_segments] at h
    exact Or.inl h
  · rw [gapCheck_segments] at h
    exact Or.inl h
  · rw [gapCheck_segments] at h
    exact Or.inl h
  · rcases foldl_stitchSegment_mem segs _ t h with h | ⟨s, hs, hf⟩
    · rw [gapCheck_segments] at h
      exact Or.inl h
    · exact Or.inr ⟨rfl, segs, rfl, s, hs, hf⟩

theorem stitchAll_mem {speedFactor : ℚ} :
    ∀ (rs : List ChunkResult) (i : ℕ) (st : StitchState) (t : TranscriptionSegment),
      t ∈ (stitchAll speedFactor i st rs).segments →
      t ∈ st.segments ∨
        ∃ r ∈ rs, r.success = true ∧ ∃ segs, r.segments = some segs ∧
          ∃ s ∈ segs, FromSvcSeg speedFactor r.chunkStartTime s t := by
  intro rs
  induction rs with
  | nil => intro i st t h; exact Or.inl h
  | cons r rs ih =>
    intro i st t h
    rw [stitchAll] at h
    rcases ih _ _ t h with h | ⟨r', hr', hrest⟩
    · rcases stitchChunk_mem h with h | hf
      · exact Or.inl h
      · exact Or.inr ⟨r, List.mem_cons_self r rs, hf⟩
    · exact Or.inr ⟨r', List.mem_cons_of_mem r hr', hrest⟩

theorem processChunkResults_fst (chunkResults : List ChunkResult) (speedFactor : ℚ) :
    (processChunkResults chunkResults speedFactor).1 =
      (stitchAll speedFactor 0 ⟨[], [], 1, 0⟩ (sortByChunkIndex chunkResults)).segments := by
  simp only [processChunkResults]
  split <;> split <;> rfl

/-- Claim C4: every segment emitted by the stitcher comes from a service
segment `(s, e, t)` of a successful chunk result with original-timeline
start `T`, and satisfies `start = s × F + T`, `end = e × F + T` (exactly,
hence within 1 ms), with the text trimmed and non-empty (service segments
whose trimmed text is empty produce no output segment). -/
theorem c4_timestamp_law :
    ∀ (chunkResults : List ChunkResult) (speedFactor : ℚ) (t : TranscriptionSegment),
      t ∈ (processChunkResults chunkResults speedFactor).1 →
      SegmentFromSource chunkResults speedFactor t := by
  intro chunkResults speedFactor t h
  rw [processChunkResults_fst] at h
  rcases stitchAll_mem _ _ _ _ h with h | ⟨r, hr, hsuc, segs, hsegs, s, hs, hf⟩
  · exact absurd h (List.not_mem_nil t)
  · exact ⟨r, mem_sortByChunkIndex.1 hr, hsuc, segs, hsegs, s, hs, hf⟩

def c4WitnessResults : List ChunkResult :=
  [{ chunkIndex := 1, chunkPath := "chunk_001.mp3", chunkStartTime := 5, chunkDuration := 2,
     success := true, segments := some [⟨1, 2, " hi "⟩], error := none, retries := 0,
     duration := some 2 }]

/-- Witness for C4: the single service segment `(1, 2, " hi ")` on a chunk
starting at 5 s with factor 2 yields the final segment `(7, 9, "hi")`. -/
theorem c4_timestamp_law_witness :
    SegmentFromSource c4WitnessResults 2 ⟨1, 7, 9, "hi"⟩ :=
  c4_timestamp_law c4WitnessResults 2 ⟨1, 7, 9, "hi"⟩ (by
    rw [processChunkResults_fst]
    norm_num +decide [c4WitnessResults, sortByChunkIndex, insertByIdx, stitchAll,
      stitchChunk, gapCheck, stitchSegment, trimString, trimChars, lastN])

/-! ### C1: final job status -/

def c1GapResults : List ChunkResult :=
  [{ chunkIndex := 1, chunkPath := "chunk_001.mp3", chunkStartTime := 0, chunkDuration := 2,
     success := true, segments := some [⟨0, 1, "hello"⟩], error := none, retries := 0,
     duration := some 2 },
   { chunkIndex := 2, chunkPath := "chunk_002.mp3", chunkStartTime := 10, chunkDuration := 2,
     success := true, segments := some [⟨0, 1, "world"⟩], error := none, retries := 0,
     duration := some 2 }]

/-- Claim C1, counterexample: a job whose stitch pass produced a warning (a
9 s GAP between chunks) and a full segment list is returned with status
`completed`, not `completed_with_warnings` as the claim requires. -/
theorem c1_status_counterexample :
    transcribeAudioOutcome c1GapResults 1 =
        .ok { status := "completed",
              segments := [⟨1, 0, 1, "hello"⟩, ⟨2, 10, 11, "world"⟩],
              warnings := [.gapOverlap true 9 1] } ∧
      claimedFinalStatus 0 [.gapOverlap true 9 1] true = "completed_with_warnings" ∧
      ("completed" : String) ≠ "completed_with_warnings" := by
  refine ⟨?_, by decide, by decide⟩
  norm_num +decide [c1GapResults, transcribeAudioOutcome, processChunkResults,
    sortByChunkIndex, insertByIdx, stitchAll, stitchChunk, gapCheck, stitchSegment,
    trimString, trimChars, lastN, abs_eq_max_neg, max_def]

/-- Claim C1 (amended): whenever `transcribeAudio` returns at all, the job
status is `completed` — warnings never demote the status to
`completed_with_warnings`, and every failure path raises an error instead of
producing a `failed` job record. -/
theorem c1_status_always_completed :
    ∀ (chunkResults : List ChunkResult) (speedFactor : ℚ) (out : TranscriptionOutcome),
      transcribeAudioOutcome chunkResults speedFactor = .ok out →
      out.status = "completed" := by
  intro chunkResults speedFactor out h
  simp only [transcribeAudioOutcome] at h
  split_ifs at h with h1 h2 h3
  rw [Except.ok.injEq] at h
  rw [← h]

def c1WitnessResults : List ChunkResult :=
  [{ chunkIndex := 1, chunkPath := "chunk_001.mp3", chunkStartTime := 0, chunkDuration := 2,
     success := true, segments := some [⟨0, 1, "hello"⟩], error := none, retries := 0,
     duration := some 2 }]

/-- Witness for C1 (amended) at a clean single-chunk job. -/
theorem c1_status_always_completed_witness :
    transcribeAudioOutcome c1WitnessResults 1 =
        .ok { status := "completed", segments := [⟨1, 0, 1, "hello"⟩], warnings := [] } ∧
      (TranscriptionOutcome.mk "completed" [⟨1, 0, 1, "hello"⟩] []).status = "completed" :=
  have h : transcribeAudioOutcome c1WitnessResults 1 =
      .ok { status := "completed", segments := [⟨1, 0, 1, "hello"⟩], warnings := [] } := by
    norm_num +decide [c1WitnessResults, transcribeAudioOutcome, processChunkResults,
      sortByChunkIndex, insertByIdx, stitchAll, stitchChunk, gapCheck, stitchSegment,
      trimString, trimChars, lastN, abs_eq_max_neg, max_def]
  ⟨h, c1_status_always_completed c1WitnessResults 1 _ h⟩

/-! ### C6: stitcher output invariants -/

def c6BugResults : List ChunkResult :=
  [{ chunkIndex := 1, chunkPath := "chunk_001.mp3", chunkStartTime := 0, chunkDuration := 3,
     success := true, segments := some [⟨0, 1, "a"⟩, ⟨1, 2, " "⟩, ⟨2, 3, "b"⟩],
     error := none, retries := 0, duration := some 3 }]

/-- Claim C6: the output indices are NOT contiguous.  A successful chunk
whose middle service segment has whitespace-only text makes the stitcher
emit two segments with indices 1 and 3 — the dropped empty-text segment
consumes index 2 because only the duplicate branch rolls the counter back
(`segmentIndex--`), the empty-text skip does not.  The spec's invariant
"indices 1..K contiguous" demands [1, 2]. -/
theorem c6_index_gap_bug :
    ((processChunkResults c6BugResults 1).1.map fun s => s.index) = [1, 3] ∧
      (processChunkResults c6BugResults 1).1.length = 2 := by
  constructor <;>
    rw [processChunkResults_fst] <;>
    norm_num +decide [c6BugResults, sortByChunkIndex, insertByIdx, stitchAll, stitchChunk,
      gapCheck, stitchSegment, trimString, trimChars, lastN]

/-! ### C7: chunk plan invariants -/

theorem mkPlan_actualStart (totalDuration idealChunkDuration silenceWindow minChunkDuration
    estimatedBytesPerSecond : ℚ) (silences : List SilenceSegment) (cs : ℚ) (idx : ℕ) :
    (mkPlan totalDuration idealChunkDuration silenceWindow minChunkDuration
      estimatedBytesPerSecond silences cs idx).actualStart = cs := rfl

theorem mkPlan_duration (totalDuration idealChunkDuration silenceWindow minChunkDuration
    estimatedBytesPerSecond : ℚ) (silences : List SilenceSegment) (cs : ℚ) (idx : ℕ) :
    (mkPlan totalDuration idealChunkDuration silenceWindow minChunkDuration
        estimatedBytesPerSecond silences cs idx).duration =
      planActualEnd totalDuration idealChunkDuration silenceWindow minChunkDuration
        silences cs - cs := rfl

theorem planActualEnd_le (totalDuration idealChunkDuration silenceWindow minChunkDuration : ℚ)
    (silences : List SilenceSegment) (cs : ℚ) :
    planActualEnd totalDuration idealChunkDuration silenceWindow minChunkDuration silences cs ≤
      totalDuration := min_le_right _ _

theorem planAux_head_start (totalDuration idealChunkDuration silenceWindow minChunkDuration
    estimatedBytesPerSecond : ℚ) (silences : List SilenceSegment) :
    ∀ (fuel : ℕ) (cs : ℚ) (idx : ℕ) (p : SmartChunkPlan),
      (planSilenceBasedChunksAux totalDuration idealChunkDuration silenceWindow
          minChunkDuration estimatedBytesPerSecond silences fuel cs idx).head? = some p →
      p.actualStart = cs := by
  intro fuel
  cases fuel with
  | zero =>
    intro cs idx p h
    exact absurd h (by simp [planSilenceBasedChunksAux])
  | succ n =>
    intro cs idx p h
    rw [planSilenceBasedChunksAux] at h
    split_ifs at h
    all_goals
      first
        | (rw [List.head?_cons] at h; injection h with h; rw [← h, mkPlan_actualStart])
        | exact absurd h (by simp)

theorem planAux_invariant (totalDuration idealChunkDuration silenceWindow minChunkDuration
    estimatedBytesPerSecond : ℚ) (silences : List SilenceSegment) :
    ∀ (fuel : ℕ) (cs : ℚ) (idx : ℕ),
      (∀ p ∈ planSilenceBasedChunksAux totalDuration idealChunkDuration silenceWindow
          minChunkDuration estimatedBytesPerSecond silences fuel cs idx,
          1 / 10 ≤ p.duration ∧ p.actualStart + p.duration ≤ totalDuration) ∧
        List.Chain' (fun p q => p.actualStart + p.duration = q.actualStart)
          (planSilenceBasedChunksAux totalDuration idealChunkDuration silenceWindow
            minChunkDuration estimatedBytesPerSecond silences fuel cs idx) ∧
        (planSilenceBasedChunksAux totalDuration idealChunkDuration silenceWindow
            minChunkDuration estimatedBytesPerSecond silences fuel cs idx ≠ [] →
          cs + ((planSilenceBasedChunksAux totalDuration idealChunkDuration silenceWindow
              minChunkDuration estimatedBytesPerSecond silences fuel cs idx).map
              (fun p => p.duration)).sum ≤ totalDuration) := by
  intro fuel
  induction fuel with
  | zero =>
    intro cs idx
    refine ⟨?_, ?_, ?_⟩ <;> simp [planSilenceBasedChunksAux]
  | succ n ih =>
    intro cs idx
    by_cases h1 : cs < totalDuration
    · by_cases h2 : planActualEnd totalDuration idealChunkDuration silenceWindow
          minChunkDuration silences cs - cs < 1 / 10
      · rw [planSilenceBasedChunksAux, if_pos h1, if_pos h2]
        refine ⟨?_, ?_, ?_⟩ <;> simp
      · rw [planSilenceBasedChunksAux, if_pos h1, if_neg h2]
        have hdur : 1 / 10 ≤ planActualEnd totalDuration idealChunkDuration silenceWindow
            minChunkDuration silences cs - cs := le_of_not_lt h2
        have hAEle := planActualEnd_le totalDuration idealChunkDuration silenceWindow
          minChunkDuration silences cs
        have hplanEnd : (mkPlan totalDuration idealChunkDuration silenceWindow
              minChunkDuration estimatedBytesPerSecond silences cs idx).actualStart +
            (mkPlan totalDuration idealChunkDuration silenceWindow minChunkDuration
              estimatedBytesPerSecond silences cs idx).duration =
            planActualEnd totalDuration idealChunkDuration silenceWindow minChunkDuration
              silences cs := by
          rw [mkPlan_actualStart, mkPlan_duration]; ring
        by_cases h3 : totalDuration ≤ planActualEnd totalDuration idealChunkDuration
            silenceWindow minChunkDuration silences cs
        · rw [if_pos h3]
          refine ⟨?_, ?_, ?_⟩
          · intro p hp
            rcases List.mem_singleton.1 hp with rfl
            exact ⟨hdur, by rw [hplanEnd]; exact hAEle⟩
          · simp
          · intro _
            simp only [List.map_cons, List.map_nil, List.sum_cons, List.sum_nil, add_zero,
              mkPlan_duration]
            calc cs + (planActualEnd totalDuration idealChunkDuration silenceWindow
                  minChunkDuration silences cs - cs) =
                planActualEnd totalDuration idealChunkDuration silenceWindow
                  minChunkDuration silences cs := by ring
              _ ≤ totalDuration := hAEle
        · rw [if_neg h3]
          by_cases h4 : 1000 < idx + 1
          · rw [if_pos h4]
            refine ⟨?_, ?_, ?_⟩
            · intro p hp
              rcases List.mem_singleton.1 hp with rfl
              exact ⟨hdur, by rw [hplanEnd]; exact hAEle⟩
            · simp
            · intro _
              simp only [List.map_cons, List.map_nil, List.sum_cons, List.sum_nil, add_zero,
                mkPlan_duration]
              calc cs + (planActualEnd totalDuration idealChunkDuration silenceWindow
                    minChunkDuration silences cs - cs) =
                  planActualEnd totalDuration idealChunkDuration silenceWindow
                    minChunkDuration silences cs := by ring
                _ ≤ totalDuration := hAEle
          · rw [if_neg h4]
            obtain ⟨ihmem, ihchain, ihsum⟩ := ih (planActualEnd totalDuration
              idealChunkDuration silenceWindow minChunkDuration silences cs) (idx + 1)
            refine ⟨?_, ?_, ?_⟩
            · intro p hp
              rcases List.mem_cons.1 hp with rfl | hp
              · exact ⟨hdur, by rw [hplanEnd]; exact hAEle⟩
              · exact ihmem p hp
            · refine List.chain'_cons'.2 ⟨?_, ihchain⟩
              intro q hq
              rw [hplanEnd]
              exact (planAux_head_start totalDuration idealChunkDuration silenceWindow
                minChunkDuration estimatedBytesPerSecond silences n _ _ q hq).symm
            · intro _
              simp only [List.map_cons, List.sum_cons, mkPlan_duration]
              by_cases hnil : planSilenceBasedChunksAux totalDuration idealChunkDuration
                  silenceWindow minChunkDuration estimatedBytesPerSecond silences n
                  (planActualEnd totalDuration idealChunkDuration silenceWindow
                    minChunkDuration silences cs) (idx + 1) = []
              · rw [hnil]
                simp only [List.map_nil, List.sum_nil, add_zero]
                calc cs + (planActualEnd totalDuration idealChunkDuration silenceWindow
                      minChunkDuration silences cs - cs) =
                    planActualEnd totalDuration idealChunkDuration silenceWindow
                      minChunkDuration silences cs := by ring
                  _ ≤ totalDuration := hAEle
              · have hs := ihsum hnil
                linarith [hs]
    · rw [planSilenceBasedChunksAux, if_neg h1]
      refine ⟨?_, ?_, ?_⟩ <;> simp

/-- Claim C7 (amended): for every chunk plan produced for a positive total
duration, adjacent chunks are exactly contiguous
(`startTime + duration = next.startTime`, hence within 10 ms), no emitted
chunk is shorter than 0.1 s, no chunk's end boundary exceeds the total
duration, and the sum of the chunk durations never exceeds the total
duration (it can fall short of it when the planner's `< 0.1 s` break
discards a tail, so equality within 10 ms does not hold in general). -/
theorem c7_plan_invariants_amended (totalDuration idealChunkDuration silenceWindow
    minChunkDuration estimatedBytesPerSecond : ℚ) (silences : List SilenceSegment)
    (htotal : 0 < totalDuration) :
    List.Chain' (fun p q => p.actualStart + p.duration = q.actualStart)
      (planSilenceBasedChunks totalDuration idealChunkDuration silences silenceWindow
        minChunkDuration estimatedBytesPerSecond) ∧
      (∀ p ∈ planSilenceBasedChunks totalDuration idealChunkDuration silences silenceWindow
          minChunkDuration estimatedBytesPerSecond,
        1 / 10 ≤ p.duration ∧ p.actualStart + p.duration ≤ totalDuration) ∧
      ((planSilenceBasedChunks totalDuration idealChunkDuration silences silenceWindow
          minChunkDuration estimatedBytesPerSecond).map fun p => p.duration).sum ≤
        totalDuration := by
  obtain ⟨hmem, hchain, hsum⟩ := planAux_invariant totalDuration idealChunkDuration
    silenceWindow minChunkDuration estimatedBytesPerSecond silences 1002 0 0
  refine ⟨hchain, hmem, ?_⟩
  by_cases hnil : planSilenceBasedChunks totalDuration idealChunkDuration silences
      silenceWindow minChunkDuration estimatedBytesPerSecond = []
  · rw [hnil]
    simpa using le_of_lt htotal
  · have hs := hsum hnil
    have hz : (0 : ℚ) + ((planSilenceBasedChunks totalDuration idealChunkDuration silences
        silenceWindow minChunkDuration estimatedBytesPerSecond).map
        (fun p => p.duration)).sum ≤ totalDuration := hs
    linarith [hz]

/-- Witness for C7 (amended): a 1 s audio with no silences, ideal chunk
duration 1 s, window 5 s, minimum chunk 30 s. -/
theorem c7_plan_invariants_amended_witness :
    List.Chain' (fun p q => p.actualStart + p.duration = q.actualStart)
      (planSilenceBasedChunks 1 1 [] 5 30 0) ∧
      ((planSilenceBasedChunks 1 1 [] 5 30 0).map fun p => p.duration).sum ≤ 1 :=
  have h := c7_plan_invariants_amended 1 1 5 30 0 [] (by norm_num)
  ⟨h.1, h.2.2⟩

/-- Claim C7, counterexample: for the positive total duration 0.05 s (with
ideal chunk duration 0.05 s and no silences) the planner's `< 0.1 s` break
discards the whole audio and returns an empty plan, so the sum of the chunk
durations (0) misses the original duration by 50 ms, far beyond the claimed
10 ms tolerance. -/
theorem c7_sum_duration_counterexample :
    planSilenceBasedChunks (1 / 20) (1 / 20) [] 5 30 0 = [] ∧
      ¬(|((planSilenceBasedChunks (1 / 20) (1 / 20) [] 5 30 0).map
            (fun p => p.duration)).sum - 1 / 20| ≤ 1 / 100) ∧
      (0 : ℚ) < 1 / 20 := by
  have h : planSilenceBasedChunks (1 / 20) (1 / 20) [] 5 30 0 = [] := by
    rw [planSilenceBasedChunks, show (1002 : ℕ) = 1001 + 1 from rfl,
      planSilenceBasedChunksAux]
    norm_num [planActualEnd, chooseCutPoint, min_def]
  refine ⟨h, ?_, by norm_num⟩
  rw [h]
  norm_num [abs_eq_max_neg, max_def]
